import Mathlib

/- Shallow embedding of the incremental summarization core of the LINE
summary bot (src/index.js).  JavaScript strings are modelled as lists of
characters (`Str`); store timestamps as `Int` milliseconds; Firestore reads
and the LINE / Gemini network calls are modelled as explicit inputs
(per-conversation message logs, generation oracles) and explicit output
traces of delivery actions. -/

/-! ## String primitives -/

abbrev Str := List Char

/-- JS `String.prototype.toLowerCase`, applied per character. -/
def lowerStr (s : Str) : Str := s.map Char.toLower

/-- Whitespace test backing JS `String.prototype.trim`. -/
def isWS (c : Char) : Bool := c.isWhitespace

/-- Leading-whitespace removal. -/
def trimLeft (s : Str) : Str := s.dropWhile isWS

/-- Trailing-whitespace removal. -/
def trimRight (s : Str) : Str := (s.reverse.dropWhile isWS).reverse

/-- JS `String.prototype.trim`. -/
def trimStr (s : Str) : Str := trimRight (trimLeft s)

/-- JS `text.split('\n')` (src/index.js:712). -/
def splitLines : Str → List Str
  | [] => [[]]
  | c :: rest =>
    if c = '\n' then [] :: splitLines rest
    else
      match splitLines rest with
      | [] => [[c]]
      | l :: ls => (c :: l) :: ls

/-- JS `Array.prototype.join(sep)`. -/
def joinWith (sep : Str) : List Str → Str
  | [] => []
  | [s] => s
  | s :: t :: rest => s ++ sep ++ joinWith sep (t :: rest)

/-- The lines of a text re-assembled after the first one: each remaining
line preceded by the newline that separated it. -/
def joinRest : List Str → Str
  | [] => []
  | l :: ls => '\n' :: (l ++ joinRest ls)

/-! ## splitIntoMessages (src/index.js:710-731) -/

/-- Loop of `splitIntoMessages`: greedily accumulate lines into the current
segment; close the segment (trimmed) when appending the next line would
exceed `maxLength`, and finally push the trimmed remainder if nonempty. -/
def splitGo (maxLength : Nat) : List Str → Str → List Str
  | [], cur => if 0 < (trimStr cur).length then [trimStr cur] else []
  | line :: rest, cur =>
    if cur.length + line.length + 1 > maxLength ∧ cur.length > 0 then
      trimStr cur :: splitGo maxLength rest line
    else
      splitGo maxLength rest (cur ++ (if cur.length > 0 then ['\n'] else []) ++ line)

/-- JS `splitIntoMessages(text, maxLength = 4000)`: split a long digest on
line boundaries into segments of at most `maxLength` characters. -/
def splitIntoMessages (text : Str) (maxLength : Nat := 4000) : List Str :=
  splitGo maxLength (splitLines text) []

/-- A line that is nonempty and carries no leading or trailing whitespace;
on such lines JS `trim` is the identity. -/
def headNW : Str → Bool
  | [] => false
  | c :: _ => !isWS c

/-- Nonempty line whose first and last characters are not whitespace. -/
def niceLine (s : Str) : Bool := headNW s && headNW s.reverse

/-! ## Data model (src/index.js, §3 of the spec) -/

/-- A stored chat message, with the fields the summarization core reads.
JS falsy string fields (absent or empty) are modelled as `[]`; a missing
`timestamp` as `none`. -/
structure Message where
  text : Str
  timestamp : Option Int
  displayName : Str
  chatsType : Str
  groupName : Str
deriving DecidableEq

/-- The message filter at src/index.js:844 and :938:
`msg.text && msg.text.toLowerCase() !== '/summarize'`. -/
def textOk (m : Message) : Bool :=
  !m.text.isEmpty && decide (lowerStr m.text ≠ "/summarize".toList)

/-- The timestamp filter at src/index.js:848-851 and :942-945: messages with
no timestamp are dropped; the rest must be strictly newer than the
watermark `w`. -/
def tsAfter (w : Int) (m : Message) : Bool :=
  match m.timestamp with
  | none => false
  | some ts => decide (ts > w)

/-- Message selection of the direct per-conversation path
(src/index.js:828-856).  `msgs` is the chat's message log in the store's
chronological (ascending-timestamp) order; the Firestore query
`orderBy('timestamp','desc').limit(lim)` returns the last `lim` entries
newest-first and the code reverses them back to chronological order, so the
fetch is modelled as `(msgs.reverse.take lim).reverse`.  The final
`slice(-30)` of the no-watermark branch is `List.rtake _ 30`. -/
def selectMessages (w : Option Int) (msgs : List Message) : List Message :=
  let lim : Nat := if w.isSome then 100 else 30
  let chron := ((msgs.reverse.take lim).reverse).filter textOk
  match w with
  | some t => chron.filter (tsAfter t)
  | none => chron.rtake 30

/-- Sort key of the no-watermark branch of the collection-group path
(src/index.js:950-953): a missing timestamp is treated as epoch 0. -/
def sortKey (m : Message) : Int := m.timestamp.getD 0

/-- Stable insertion into a list sorted ascending by `sortKey`; one step of
the stable JS `Array.prototype.sort` with comparator `timeA - timeB`. -/
def insertByTs (m : Message) : List Message → List Message
  | [] => [m]
  | x :: xs => if sortKey m ≤ sortKey x then m :: x :: xs else x :: insertByTs m xs

/-- Stable ascending sort by timestamp (JS `Array.prototype.sort` is
stable). -/
def sortByTs (l : List Message) : List Message := l.foldr insertByTs []

/-- Message selection of the collection-group fallback path
(src/index.js:934-957): the grouped in-memory messages are filtered, and in
the no-watermark branch sorted by timestamp before taking the last 30. -/
def selectMessagesCG (w : Option Int) (msgs : List Message) : List Message :=
  let f1 := msgs.filter textOk
  match w with
  | some t => f1.filter (tsAfter t)
  | none => (sortByTs f1).rtake 30

/-! ## RateLimiter (src/index.js:734-761) -/

/-- Prune request timestamps that fell out of the trailing window
(src/index.js:745): keep `time` with `now - time < windowMs`. -/
def pruneReqs (windowMs now : Int) (reqs : List Int) : List Int :=
  reqs.filter (fun time => now - time < windowMs)

/-- One `waitForSlot` call (src/index.js:741-760).  The recursion after the
`setTimeout` sleep re-reads the clock; sleeping is modelled as advancing
`now` by exactly the wait time.  Returns the time at which the call returns
together with the updated `requests` list.  `fuel` bounds the recursion
(each wait expires at least the oldest entry and a single logical caller
adds no entries meanwhile, so `reqs.length + 1` iterations suffice; the JS
`requests[0]` being `undefined` — making `waitTime` NaN and the comparison
false — is the `none` branch). -/
def waitForSlotGo (maxRequests : Nat) (windowMs : Int) :
    Nat → Int → List Int → Int × List Int
  | 0, now, reqs => (now, reqs)
  | fuel + 1, now, reqs =>
    let pruned := pruneReqs windowMs now reqs
    if maxRequests ≤ pruned.length then
      match pruned.head? with
      | some oldest =>
        let waitTime := windowMs - (now - oldest)
        if 0 < waitTime then
          waitForSlotGo maxRequests windowMs fuel (now + waitTime) pruned
        else (now, pruned ++ [now])
      | none => (now, pruned ++ [now])
    else (now, pruned ++ [now])

/-- `RateLimiter.waitForSlot` on a limiter configured with `maxRequests`
per `windowMs`, called at time `now` with recorded requests `reqs`. -/
def waitForSlot (maxRequests : Nat) (windowMs now : Int) (reqs : List Int) :
    Int × List Int :=
  waitForSlotGo maxRequests windowMs (reqs.length + 1) now reqs

/-- Fold a sequence of acquire calls (call times, in order) through the
limiter state, starting from an empty request list. -/
def runAcquires (maxRequests : Nat) (windowMs : Int) (times : List Int) : List Int :=
  times.foldl (fun reqs t => (waitForSlot maxRequests windowMs t reqs).2) []

/-! ## Generation client (src/index.js:763-807) -/

/-- `s` starts with `pat` (helper for the JS `includes` model). -/
def strStarts : Str → Str → Bool
  | _, [] => true
  | [], _ :: _ => false
  | c :: s, d :: p => c = d && strStarts s p

/-- JS `String.prototype.includes(pat)`. -/
def containsSub (s pat : Str) : Bool :=
  strStarts s pat ||
    match s with
    | [] => false
    | _ :: t => containsSub t pat

/-- Rate-limit classification of a thrown error message
(src/index.js:786-791): `error.message && (error.message.includes('429') ||
… 'TooManyRequests' || 'quota' || 'rate limit')`. -/
def isRateLimitMsg (msg : Str) : Bool :=
  !msg.isEmpty &&
    (containsSub msg ("429".toList) || containsSub msg ("TooManyRequests".toList) ||
      containsSub msg ("quota".toList) || containsSub msg ("rate limit".toList))

/-- Decimal rendering of a `Nat`, for interpolated JS template strings. -/
def natToStr (n : Nat) : Str := (toString n).toList

/-- Message of the error thrown after exhausting retries
(src/index.js:799). -/
def rateLimitExceededMsg (maxRetries : Nat) : Str :=
  "Rate limit exceeded after ".toList ++ natToStr maxRetries ++
    " attempts. Please try again later.".toList

/-- Outcome of one call of the external generation service. -/
inductive GenOutcome where
  | ok (text : Str)
  | err (msg : Str)
deriving DecidableEq

/-- Retry loop of `generateContentWithRetry` (src/index.js:768-807), at
attempt number `attempt` with `fuel` loop iterations remaining
(`fuel = maxRetries + 1 - attempt`).  `oracle k` is the outcome of the
external call on attempt `k` (the per-attempt `waitForSlot` gate delays but
does not alter outcomes and is abstracted into the oracle).  Returns the
backoff sleep durations (ms) performed, and either the generated text
(`Except.ok (some t)`), the JS `undefined` return when the loop exhausts
without a throw (`Except.ok none`, reachable only for `maxRetries = 0`), or
the thrown error message. -/
def genRetryGo (oracle : Nat → GenOutcome) (maxRetries : Nat) :
    Nat → Nat → List Nat × Except Str (Option Str)
  | 0, _ => ([], Except.ok none)
  | fuel + 1, attempt =>
    match oracle attempt with
    | GenOutcome.ok t => ([], Except.ok (some t))
    | GenOutcome.err m =>
      if isRateLimitMsg m then
        if attempt < maxRetries then
          let r := genRetryGo oracle maxRetries fuel (attempt + 1)
          (2 ^ attempt * 1000 :: r.1, r.2)
        else ([], Except.error (rateLimitExceededMsg maxRetries))
      else ([], Except.error m)

/-- `generateContentWithRetry(prompt, maxRetries = 3)`; the fixed prompt is
folded into the oracle. -/
def generateContentWithRetry (oracle : Nat → GenOutcome) (maxRetries : Nat := 3) :
    List Nat × Except Str (Option Str) :=
  genRetryGo oracle maxRetries maxRetries 1

/-! ## Batch processing and delivery (src/index.js:810-1020) -/

/-- A chat document together with its messages subcollection in store
(chronological) order. -/
structure ChatDoc where
  id : Str
  msgs : List Message
deriving DecidableEq

/-- The triggering LINE event: reply token and the source ids behind
`event.source.groupId || event.source.userId`. -/
structure Event where
  replyToken : Str
  groupId : Option Str
  userId : Str
deriving DecidableEq

/-- Push target of later batches (src/index.js:903, :1007). -/
def targetOf (e : Event) : Str :=
  match e.groupId with
  | some g => g
  | none => e.userId

/-- Chat kind snapshot taken from the first selected message
(src/index.js:862, :965). -/
def chatTypeOf (m : Message) : Str := m.chatsType

/-- Chat label from the first selected message (src/index.js:863-865,
:966-968), with fallbacks for falsy fields. -/
def chatNameOf (m : Message) : Str :=
  if m.chatsType = "group".toList then
    (if m.groupName.isEmpty then "Unknown Group".toList else m.groupName)
  else
    (if m.displayName.isEmpty then "Direct Chat".toList else m.displayName)

/-- One `"<author>: <text>"` line (src/index.js:870-872, :972-974). -/
def msgLine (m : Message) : Str :=
  (if m.displayName.isEmpty then "User".toList else m.displayName) ++ ": ".toList ++ m.text

/-- The joined conversation text of the selected messages. -/
def conversationTextOf (msgs : List Message) : Str :=
  joinWith ['\n'] (msgs.map msgLine)

/-- Prompt template of the direct path up to the first interpolation
(src/index.js:875-878); the `\u00xx` escapes reproduce the source file's
literal (mojibake) characters. -/
def promptPrefix1 : Str :=
  ("Summarize the key points and action items from the following group chat conversation, with additional focusing exclusively on anything relevant to the user Kla.\nIf and only if Kla or any of his aliases are mentioned, provide a brief, bulleted list of the key points, questions, or action items directed at him.\nKla is mentioned using these names: @kla, @klawisesight, à¸à¸¥à¹‰à¸², or kla.\nDo not add any headlines, introductory sentences. Chat Conversation to Summarize: \"").toList

/-- Full prompt of the direct path. -/
def mkPrompt1 (chatName convText : Str) : Str :=
  promptPrefix1 ++ chatName ++ ("\":\n\n").toList ++ convText ++ ("\n\nSummary:").toList

/-- Prompt template of the collection-group path up to the first
interpolation (src/index.js:976-981, a template literal that keeps the
source indentation). -/
def promptPrefix2 : Str :=
  ("Summarize the following group chat conversation. Your primary objective is to create a summary specifically for a user named Kla. It is critical to highlight all direct mentions, questions, and action items assigned to him so he doesn't miss anything important. \n      Key Persona to Focus On:\n      Kla is mentioned using these names: @kla, @klawisesight, à¸à¸¥à¹‰à¸², or kla.\n      Required Output Structure:\n      1. General Summary: Provide a brief, 2-3 sentence paragraph outlining the main topics and overall sentiment of the conversation.\n      2. Mentions & Action Items for Kla: Create a dedicated, bulleted list for every instance where Kla was mentioned. For each bullet point, clearly state: The context of the mention. Who made the mention. Any direct questions or action items for Kla. Chat Conversation to Summarize: \"").toList

/-- Full prompt of the collection-group path. -/
def mkPrompt2 (chatName convText : Str) : Str :=
  promptPrefix2 ++ chatName ++ ("\":\n\n").toList ++ convText ++ ("\n\nSummary:").toList

/-- Per-conversation digest entry of the direct path (src/index.js:881). -/
def entry1 (chatType chatName summary : Str) : Str :=
  ("ðŸ“ **").toList ++ chatType ++ (" : ").toList ++ chatName ++
    ("**\n").toList ++ summary

/-- Per-conversation digest entry of the collection-group path
(src/index.js:985); note the trailing newline. -/
def entry2 (chatType chatName summary : Str) : Str :=
  ("ðŸ“ **").toList ++ chatType ++ (" : ").toList ++ chatName ++
    ("**\n").toList ++ summary ++ ['\n']

/-- `batchTitle` (src/index.js:886, :990). -/
def batchTitle (totalBatches batchNumber : Nat) : Str :=
  if totalBatches > 1 then
    (" (Batch ").toList ++ natToStr batchNumber ++ ("/").toList ++
      natToStr totalBatches ++ (")").toList
  else []

/-- Header prepended to the combined digest (src/index.js:890, :994). -/
def digestHeader (totalBatches batchNumber : Nat) : Str :=
  ("ðŸ“‹ **Conversation Summaries").toList ++
    batchTitle totalBatches batchNumber ++ ("**\n\n").toList

/-- Summary separator of the direct path (src/index.js:887). -/
def sep1 : Str := ("\n----\n").toList

/-- Summary separator of the collection-group path (src/index.js:991). -/
def sep2 : Str := ("----------\n").toList

/-- Observable actions of a run: each Gemini call with its prompt, the LINE
deliveries (the `text` fields of the message objects), and the inter-batch
sleep (ms). -/
inductive Act where
  | genCall (prompt : Str)
  | reply (replyToken : Str) (segments : List Str)
  | push (target : Str) (segments : List Str)
  | sleep (ms : Nat)
deriving DecidableEq

/-- Deliveries and sleeps, as opposed to generation calls. -/
def isDelivery : Act → Bool
  | Act.genCall _ => false
  | _ => true

/-- Generation calls only. -/
def isGenCall : Act → Bool
  | Act.genCall _ => true
  | _ => false

/-- The shape of an action, forgetting prompt and segment texts. -/
inductive ActShape where
  | genS
  | replyS (replyToken : Str)
  | pushS (target : Str)
  | sleepS (ms : Nat)
deriving DecidableEq

/-- Forget the textual payload of an action. -/
def shapeOf : Act → ActShape
  | Act.genCall _ => ActShape.genS
  | Act.reply tk _ => ActShape.replyS tk
  | Act.push t _ => ActShape.pushS t
  | Act.sleep n => ActShape.sleepS n

/-- Per-batch inner loop of `processChatsInBatches` (src/index.js:825-882):
each chat of the batch in order; a chat whose selection is empty is skipped
(`continue`); otherwise the prompt is built and the generation client
invoked — a failure propagates as the JS exception does, aborting the rest
of the batch.  Returns the generation-call trace and either the collected
summary entries or the error message. -/
def runBatchChats (gen : Str → Except Str Str) (w : Option Int) :
    List ChatDoc → List Act × Except Str (List Str)
  | [] => ([], Except.ok [])
  | c :: cs =>
    match selectMessages w c.msgs with
    | [] => runBatchChats gen w cs
    | first :: rest =>
      let prompt := mkPrompt1 (chatNameOf first) (conversationTextOf (first :: rest))
      match gen prompt with
      | Except.error m => ([Act.genCall prompt], Except.error m)
      | Except.ok summary =>
        let r := runBatchChats gen w cs
        (Act.genCall prompt :: r.1,
          r.2.map (fun ss => entry1 (chatTypeOf first) (chatNameOf first) summary :: ss))

/-- Per-batch inner loop of `processCollectionGroupChatsInBatches`
(src/index.js:933-986), over `(chatId, messages)` entries. -/
def runBatchEntries (gen : Str → Except Str Str) (w : Option Int) :
    List (Str × List Message) → List Act × Except Str (List Str)
  | [] => ([], Except.ok [])
  | e :: es =>
    match selectMessagesCG w e.2 with
    | [] => runBatchEntries gen w es
    | first :: rest =>
      let prompt := mkPrompt2 (chatNameOf first) (conversationTextOf (first :: rest))
      match gen prompt with
      | Except.error m => ([Act.genCall prompt], Except.error m)
      | Except.ok summary =>
        let r := runBatchEntries gen w es
        (Act.genCall prompt :: r.1,
          r.2.map (fun ss => entry2 (chatTypeOf first) (chatNameOf first) summary :: ss))

/-- Outer batch loop shared by both paths (src/index.js:815-913 and
:924-1017; the two JS loops are character-for-character identical except
for the inner runner and the summary separator, which are parameters
here).  `fuel` bounds the iteration count (`chats.length` suffices for any
positive batch size; the JS loop `i += batchSize` does not terminate for
`batchSize = 0`, where the model returns at fuel exhaustion).  A batch with
no summaries sends nothing and skips the inter-batch sleep; a generation
error aborts the whole run, dropping the current batch's partial summaries
exactly as the propagating JS exception does. -/
def runBatchesGo {α : Type} (batchRun : List α → List Act × Except Str (List Str))
    (sep : Str) (ev : Event) (batchSize totalBatches : Nat) :
    Nat → Nat → List α → List Act × Option Str
  | _, _, [] => ([], none)
  | 0, _, _ :: _ => ([], none)
  | fuel + 1, bn, c :: cs =>
    let res := batchRun ((c :: cs).take batchSize)
    match res.2 with
    | Except.error m => (res.1, some m)
    | Except.ok summaries =>
      if summaries.isEmpty then
        let r := runBatchesGo batchRun sep ev batchSize totalBatches fuel (bn + 1)
          ((c :: cs).drop batchSize)
        (res.1 ++ r.1, r.2)
      else
        let segs := splitIntoMessages (digestHeader totalBatches bn ++ joinWith sep summaries) 4000
        let send := if bn = 1 then Act.reply ev.replyToken segs
                    else Act.push (targetOf ev) segs
        let delay := if ((c :: cs).drop batchSize).isEmpty then ([] : List Act)
                     else [Act.sleep 60000]
        let r := runBatchesGo batchRun sep ev batchSize totalBatches fuel (bn + 1)
          ((c :: cs).drop batchSize)
        (res.1 ++ send :: delay ++ r.1, r.2)

/-- `processChatsInBatches(client, event, chats, lastSummaryTimestamp,
batchSize = 15)` (src/index.js:810-916) as its action trace plus the
propagated generation error, if any.  `Math.ceil(totalChats / batchSize)`
is `(totalChats + batchSize - 1) / batchSize` in `Nat`. -/
def processChatsInBatches (gen : Str → Except Str Str) (ev : Event)
    (chats : List ChatDoc) (w : Option Int) (batchSize : Nat := 15) :
    List Act × Option Str :=
  runBatchesGo (runBatchChats gen w) sep1 ev batchSize
    ((chats.length + batchSize - 1) / batchSize) chats.length 1 chats

/-- `processCollectionGroupChatsInBatches(client, event, chatEntries,
lastSummaryTimestamp, batchSize = 15)` (src/index.js:919-1020). -/
def processCollectionGroupChatsInBatches (gen : Str → Except Str Str) (ev : Event)
    (chatEntries : List (Str × List Message)) (w : Option Int) (batchSize : Nat := 15) :
    List Act × Option Str :=
  runBatchesGo (runBatchEntries gen w) sep2 ev batchSize
    ((chatEntries.length + batchSize - 1) / batchSize) chatEntries.length 1 chatEntries

/-- The `(chatId, messages)` entry a chat document corresponds to. -/
def chatToEntry (c : ChatDoc) : Str × List Message := (c.id, c.msgs)

/-- Whether a chat survives selection (its summary gets generated). -/
def elig (w : Option Int) (c : ChatDoc) : Bool :=
  !(selectMessages w c.msgs).isEmpty

/-- The prompt the direct path would send for chat `c` ([] if skipped). -/
def chatPrompt1 (w : Option Int) (c : ChatDoc) : Str :=
  match selectMessages w c.msgs with
  | [] => []
  | first :: rest => mkPrompt1 (chatNameOf first) (conversationTextOf (first :: rest))

/-- The text the generation oracle yields on a prompt ([] on failure). -/
def genText (gen : Str → Except Str Str) (p : Str) : Str :=
  match gen p with
  | Except.ok t => t
  | Except.error _ => []

/-- The digest entry the direct path produces for chat `c` ([] if
skipped). -/
def chatSummaryE (gen : Str → Except Str Str) (w : Option Int) (c : ChatDoc) : Str :=
  match selectMessages w c.msgs with
  | [] => []
  | first :: _ => entry1 (chatTypeOf first) (chatNameOf first) (genText gen (chatPrompt1 w c))

/-- The segment list the direct path delivers for a batch in which every
generation call succeeds. -/
def batchSegs (gen : Str → Except Str Str) (w : Option Int) (tb bn : Nat)
    (batch : List ChatDoc) : List Str :=
  splitIntoMessages
    (digestHeader tb bn ++ joinWith sep1 ((batch.filter (elig w)).map (chatSummaryE gen w)))
    4000

/-- User-facing error text of the `/summarize` handler's catch block
(src/index.js:1407-1423). -/
def errorReplyText (m : Str) : Str :=
  cond (!m.isEmpty && containsSub m ("Rate limit exceeded".toList))
    (("â° I'm currently rate limited by the AI service. Please wait a moment and try again in a few minutes.").toList)
    (cond (!m.isEmpty && containsSub m ("quota".toList))
      (("ðŸ“Š I've reached my daily quota limit for AI requests. Please try again tomorrow.").toList)
      (cond (!m.isEmpty && containsSub m ("429".toList))
        (("ðŸš¦ Too many requests at once. Please wait a moment before trying again.").toList)
        (("Sorry, I encountered an error while generating the summary.").toList)))

/-- The handler around a batch run (src/index.js:1407-1423): when a
generation error propagated, a single templated error reply is sent after
whatever the run already delivered (nothing already sent is retracted). -/
def handleSummarizeErrors (ev : Event) (run : List Act × Option Str) : List Act :=
  match run.2 with
  | none => run.1
  | some m => run.1 ++ [Act.reply ev.replyToken [errorReplyText m]]

/-! ## Watermark bookkeeping (src/index.js:1023-1040, 1312-1345) -/

/-- A `/summarize` trigger record in the `commands` collection. -/
structure TriggerRecord where
  commandText : Str
  timestamp : Int
deriving DecidableEq

/-- Maximum of a list of timestamps, `none` when empty. -/
def maxTs : List Int → Option Int
  | [] => none
  | t :: ts =>
    match maxTs ts with
    | none => some t
    | some u => some (max t u)

/-- `getLastSummaryTimestamp()` (src/index.js:1023-1040): the query
`where('commandText','==','/summarize').orderBy('timestamp','desc').limit(1)`
yields the greatest timestamp among matching records, or null. -/
def getLastSummaryTimestamp (commands : List TriggerRecord) : Option Int :=
  maxTs ((commands.filter
    (fun r => r.commandText = "/summarize".toList)).map (fun r => r.timestamp))

/-- Store interaction order of the `/summarize` handler
(src/index.js:1312-1345): the watermark is read first, then the run's own
trigger record (store-assigned timestamp `newTs`) is appended.  Returns the
watermark used by the run and the commands collection afterwards. -/
def summarizeStoreStep (commands : List TriggerRecord) (newTs : Int) :
    Option Int × List TriggerRecord :=
  let w := getLastSummaryTimestamp commands
  (w, commands ++ [⟨"/summarize".toList, newTs⟩])

/-! ## Theorems -/

theorem trimLeft_length_le (s : Str) : (trimLeft s).length ≤ s.length :=
  (List.dropWhile_sublist (l := s) (p := isWS)).length_le

theorem trimRight_length_le (s : Str) : (trimRight s).length ≤ s.length := by
  have h := (List.dropWhile_sublist (l := s.reverse) (p := isWS)).length_le
  simpa [trimRight] using h

theorem trimStr_length_le (s : Str) : (trimStr s).length ≤ s.length :=
  le_trans (trimRight_length_le _) (trimLeft_length_le _)

theorem splitGo_segment_bound (maxLength : Nat) (allLines : List Str) :
    ∀ (lines : List Str) (cur : Str),
      (∀ l ∈ lines, l ∈ allLines) →
      (cur.length ≤ maxLength ∨ cur ∈ allLines) →
      ∀ s ∈ splitGo maxLength lines cur,
        s.length ≤ maxLength ∨ ∃ l ∈ allLines, s = trimStr l ∧ maxLength < l.length := by
  intro lines
  induction lines with
  | nil =>
    intro cur _ hcur s hs
    simp only [splitGo] at hs
    split at hs
    · have hs' : s = trimStr cur := by simpa using hs
      subst hs'
      rcases hcur with h | h
      · exact Or.inl (le_trans (trimStr_length_le _) h)
      · by_cases hlen : cur.length ≤ maxLength
        · exact Or.inl (le_trans (trimStr_length_le _) hlen)
        · exact Or.inr ⟨cur, h, rfl, by omega⟩
    · simp at hs
  | cons line rest ih =>
    intro cur hsub hcur s hs
    have hline : line ∈ allLines := hsub line (by simp)
    have hrest : ∀ l ∈ rest, l ∈ allLines := fun l hl => hsub l (by simp [hl])
    simp only [splitGo] at hs
    split at hs
    · rename_i hcond
      rcases (by simpa using hs : s = trimStr cur ∨ s ∈ splitGo maxLength rest line) with
        h | h
      · subst h
        rcases hcur with h' | h'
        · exact Or.inl (le_trans (trimStr_length_le _) h')
        · by_cases hlen : cur.length ≤ maxLength
          · exact Or.inl (le_trans (trimStr_length_le _) hlen)
          · exact Or.inr ⟨cur, h', rfl, by omega⟩
      · exact ih line hrest (Or.inr hline) s h
    · rename_i hcond
      by_cases h0 : cur.length > 0
      · have hle : cur.length + line.length + 1 ≤ maxLength := by
          by_contra hgt
          exact hcond ⟨by omega, h0⟩
        refine ih _ hrest (Or.inl ?_) s (by simpa [h0] using hs)
        simp only [List.length_append, List.length_cons, List.length_nil]
        omega
      · have hnil : cur = [] := List.length_eq_zero.mp (by omega)
        subst hnil
        exact ih line hrest (Or.inr hline) s (by simpa using hs)

/-- C6: every segment returned by `splitIntoMessages` has length at most
`maxLength`, except that a single input line longer than `maxLength` is
emitted (trimmed) as its own oversized segment, never split mid-line. -/
theorem claim_C6_segments_bounded (text : Str) (maxLength : Nat) :
    ∀ s ∈ splitIntoMessages text maxLength,
      s.length ≤ maxLength ∨
        ∃ l ∈ splitLines text, s = trimStr l ∧ maxLength < l.length :=
  splitGo_segment_bound maxLength (splitLines text) (splitLines text) []
    (fun _ h => h) (Or.inl (by simp))

/-- C6 witness: the single segment produced from the text `hello` satisfies
the bound at `maxLength = 4000`. -/
theorem claim_C6_witness :
    ("hello".toList : Str).length ≤ 4000 ∨
      ∃ l ∈ splitLines ("hello".toList), "hello".toList = trimStr l ∧ 4000 < l.length :=
  claim_C6_segments_bounded ("hello".toList) 4000 ("hello".toList) (by decide)

theorem splitLines_ne_nil (s : Str) : splitLines s ≠ [] := by
  cases s with
  | nil => simp [splitLines]
  | cons c rest =>
    simp only [splitLines]
    split
    · simp
    · split <;> simp_all

theorem joinWith_eq_joinRest :
    ∀ (ls : List Str) (l : Str), joinWith ['\n'] (l :: ls) = l ++ joinRest ls := by
  intro ls
  induction ls with
  | nil => intro l; simp [joinWith, joinRest]
  | cons t r ih =>
    intro l
    simp only [joinWith, joinRest, ih t]
    simp

theorem joinWith_splitLines (s : Str) : joinWith ['\n'] (splitLines s) = s := by
  induction s with
  | nil => simp [splitLines, joinWith]
  | cons c rest ih =>
    simp only [splitLines]
    split
    · rename_i hc
      subst hc
      rcases hG : splitLines rest with _ | ⟨l, ls⟩
      · exact absurd hG (splitLines_ne_nil rest)
      · rw [hG] at ih
        simp only [joinWith]
        rw [ih]
        simp
    · rcases hG : splitLines rest with _ | ⟨l, ls⟩
      · exact absurd hG (splitLines_ne_nil rest)
      · rw [hG] at ih
        cases ls with
        | nil => simpa [joinWith] using congrArg (c :: ·) ih
        | cons t r =>
          simp only [joinWith] at ih ⊢
          rw [← ih]
          simp

theorem headNW_append (u v : Str) (hu : u ≠ []) : headNW (u ++ v) = headNW u := by
  cases u with
  | nil => exact absurd rfl hu
  | cons c t => simp [headNW]

theorem niceLine_ne_nil {s : Str} (h : niceLine s = true) : s ≠ [] := by
  intro hnil
  subst hnil
  simp [niceLine, headNW] at h

theorem niceLine_trim {s : Str} (h : niceLine s = true) : trimStr s = s := by
  have h1 : headNW s = true := by
    simp only [niceLine, Bool.and_eq_true] at h
    exact h.1
  have h2 : headNW s.reverse = true := by
    simp only [niceLine, Bool.and_eq_true] at h
    exact h.2
  have hleft : trimLeft s = s := by
    cases s with
    | nil => rfl
    | cons c t =>
      simp only [headNW, Bool.not_eq_true'] at h1
      simp [trimLeft, List.dropWhile_cons, h1]
  have hright : trimRight s = s := by
    rcases hrev : s.reverse with _ | ⟨d, u⟩
    · rw [hrev] at h2
      simp [headNW] at h2
    · rw [hrev] at h2
      simp only [headNW, Bool.not_eq_true'] at h2
      have : s.reverse.dropWhile isWS = s.reverse := by
        rw [hrev]
        simp [List.dropWhile_cons, h2]
      simp [trimRight, this]
  simp [trimStr, hleft, hright]

theorem niceLine_glue {a b : Str} (ha : niceLine a = true) (hb : niceLine b = true) :
    niceLine (a ++ '\n' :: b) = true := by
  have hna : a ≠ [] := niceLine_ne_nil ha
  have hnb : b ≠ [] := niceLine_ne_nil hb
  have hnbr : b.reverse ≠ [] := by simpa using hnb
  simp only [niceLine, Bool.and_eq_true] at ha hb ⊢
  constructor
  · rw [headNW_append a _ hna]
    exact ha.1
  · have : (a ++ '\n' :: b).reverse = b.reverse ++ ('\n' :: a.reverse) := by
      simp
    rw [this, headNW_append _ _ hnbr]
    exact hb.2

theorem splitGo_ne_nil (maxLength : Nat) :
    ∀ (lines : List Str) (cur : Str), niceLine cur = true →
      (∀ l ∈ lines, niceLine l = true) →
      splitGo maxLength lines cur ≠ [] := by
  intro lines
  induction lines with
  | nil =>
    intro cur hcur _
    have := niceLine_ne_nil hcur
    simp only [splitGo, niceLine_trim hcur]
    have : 0 < cur.length := List.length_pos.mpr (niceLine_ne_nil hcur)
    simp [this]
  | cons line rest ih =>
    intro cur hcur hlines
    have hline : niceLine line = true := hlines line (by simp)
    have hrest : ∀ l ∈ rest, niceLine l = true := fun l hl => hlines l (by simp [hl])
    simp only [splitGo]
    split
    · simp
    · have h0 : cur.length > 0 := List.length_pos.mpr (niceLine_ne_nil hcur)
      have hcur' : niceLine ((cur ++ if cur.length > 0 then ['\n'] else []) ++ line) = true := by
        rw [if_pos h0]
        simpa using niceLine_glue hcur hline
      exact fun hcontra => ih _ hcur' hrest (by simpa using hcontra)

theorem splitGo_join (maxLength : Nat) :
    ∀ (lines : List Str) (cur : Str), niceLine cur = true →
      (∀ l ∈ lines, niceLine l = true) →
      joinWith ['\n'] (splitGo maxLength lines cur) = cur ++ joinRest lines := by
  intro lines
  induction lines with
  | nil =>
    intro cur hcur _
    have h0 : 0 < cur.length := List.length_pos.mpr (niceLine_ne_nil hcur)
    simp [splitGo, niceLine_trim hcur, h0, joinWith, joinRest]
  | cons line rest ih =>
    intro cur hcur hlines
    have hline : niceLine line = true := hlines line (by simp)
    have hrest : ∀ l ∈ rest, niceLine l = true := fun l hl => hlines l (by simp [hl])
    simp only [splitGo]
    split
    · rcases hG : splitGo maxLength rest line with _ | ⟨g, gs⟩
      · exact absurd hG (splitGo_ne_nil maxLength rest line hline hrest)
      · have hIH := ih line hline hrest
        rw [hG] at hIH
        rw [niceLine_trim hcur]
        simp only [joinWith, joinRest]
        rw [← hG] at hIH ⊢
        rw [hIH]
        simp
    · have h0 : cur.length > 0 := List.length_pos.mpr (niceLine_ne_nil hcur)
      have hcur' : niceLine ((cur ++ if cur.length > 0 then ['\n'] else []) ++ line) = true := by
        rw [if_pos h0]
        simpa using niceLine_glue hcur hline
      rw [ih _ hcur' hrest]
      rw [if_pos h0]
      simp [joinRest]

/-- C7 counterexample: on the two-character input consisting of a space
followed by `a`, the segments are trimmed, so re-joining them does not
reproduce the input text. -/
theorem claim_C7_counterexample :
    joinWith ['\n'] (splitIntoMessages (' ' :: 'a' :: []) 4000) ≠ (' ' :: 'a' :: []) := by
  decide

/-- C7 amended: the round-trip holds for inputs whose every line is
nonempty and free of leading and trailing whitespace (per-segment trimming
and the dropping of whitespace-only remainders break it otherwise). -/
theorem claim_C7_roundtrip (text : Str) (maxLength : Nat)
    (h : ∀ l ∈ splitLines text, niceLine l = true) :
    joinWith ['\n'] (splitIntoMessages text maxLength) = text := by
  rcases hG : splitLines text with _ | ⟨l, ls⟩
  · exact absurd hG (splitLines_ne_nil text)
  · have hl : niceLine l = true := h l (by rw [hG]; simp)
    have hls : ∀ x ∈ ls, niceLine x = true := fun x hx => h x (by rw [hG]; simp [hx])
    have hstep : splitIntoMessages text maxLength = splitGo maxLength ls l := by
      simp only [splitIntoMessages, hG, splitGo]
      rw [if_neg (by simp)]
      simp
    rw [hstep, splitGo_join maxLength ls l hl hls, ← joinWith_eq_joinRest, ← hG,
      joinWith_splitLines]

/-- C7 witness: the round-trip at the concrete input `ab\ncd` with
`maxLength = 3`. -/
theorem claim_C7_witness :
    joinWith ['\n'] (splitIntoMessages ("ab\ncd".toList) 3) = "ab\ncd".toList :=
  claim_C7_roundtrip ("ab\ncd".toList) 3 (by decide)

theorem tsAfter_eq_true_iff (t : Int) (m : Message) :
    tsAfter t m = true ↔ ∃ ts, m.timestamp = some ts ∧ t < ts := by
  cases h : m.timestamp <;> simp [tsAfter, h]

theorem textOk_eq_true_iff (m : Message) :
    textOk m = true ↔ m.text ≠ [] ∧ lowerStr m.text ≠ "/summarize".toList := by
  simp [textOk]

theorem rtake_all {α : Type} (l : List α) (n : Nat) (h : l.length ≤ n) :
    l.rtake n = l := by
  simp [List.rtake, Nat.sub_eq_zero_of_le h]

theorem length_rtake_le {α : Type} (l : List α) (n : Nat) : (l.rtake n).length ≤ n := by
  simp only [List.rtake, List.length_drop]
  omega

/-- C1 amended: with a watermark `t`, a message is selected iff it is among
the 100 most recent stored messages of the conversation (the bounded fetch),
its text is nonempty and not the trigger command (case-insensitively), and
it carries a timestamp strictly newer than `t`. -/
theorem claim_C1_watermark_filter (t : Int) (msgs : List Message) (m : Message) :
    m ∈ selectMessages (some t) msgs ↔
      m ∈ msgs.rtake 100 ∧ m.text ≠ [] ∧ lowerStr m.text ≠ "/summarize".toList ∧
        ∃ ts, m.timestamp = some ts ∧ t < ts := by
  simp only [selectMessages, Option.isSome_some, if_true, List.mem_filter,
    ← List.rtake_eq_reverse_take_reverse, textOk_eq_true_iff, tsAfter_eq_true_iff]
  tauto

/-- C1 counterexample: the original claim fails in two ways.  First, with
101 stored messages all newer than the watermark 0, the oldest one is not
selected (the fetch is bounded to the last 100) although its timestamp
exceeds the watermark and its text is not the trigger.  Second, a message
with empty text and timestamp newer than the watermark is excluded although
its text is not the trigger. -/
theorem claim_C1_counterexample :
    ((⟨"hi".toList, some 1, "u".toList, "user".toList, []⟩ : Message) ∈
        (List.range 101).map
          (fun i => (⟨"hi".toList, some ((i : Int) + 1), "u".toList, "user".toList, []⟩ : Message)) ∧
      (⟨"hi".toList, some 1, "u".toList, "user".toList, []⟩ : Message) ∉
        selectMessages (some 0)
          ((List.range 101).map
            (fun i => (⟨"hi".toList, some ((i : Int) + 1), "u".toList, "user".toList, []⟩ : Message))) ∧
      lowerStr ("hi".toList) ≠ "/summarize".toList ∧ (0 : Int) < 1) ∧
    ((⟨[], some 5, "u".toList, "user".toList, []⟩ : Message) ∉
        selectMessages (some 0) [⟨[], some 5, "u".toList, "user".toList, []⟩] ∧
      lowerStr ([] : Str) ≠ "/summarize".toList ∧ (0 : Int) < 5) := by
  decide

/-- C2 amended: with no watermark, the selection is exactly the last 30
stored messages in chronological order, minus messages whose text is empty
or (case-insensitively) the trigger command. -/
theorem claim_C2_no_watermark (msgs : List Message) :
    selectMessages none msgs = (msgs.rtake 30).filter textOk := by
  simp only [selectMessages, Option.isSome_none, if_false,
    ← List.rtake_eq_reverse_take_reverse]
  exact rtake_all _ _ (le_trans (List.length_filter_le _ _) (length_rtake_le _ _))

/-- C2 counterexample: a message with empty text sits among the last 30
messages and is not the trigger command, yet the code does not consider it
(the original claim would include it). -/
theorem claim_C2_counterexample :
    selectMessages none [⟨[], some 5, "u".toList, "user".toList, []⟩] = [] ∧
      lowerStr ([] : Str) ≠ "/summarize".toList := by
  decide

theorem pruneReqs_eq_self (wm now : Int) (reqs : List Int)
    (h : ∀ x ∈ reqs, now - x < wm) : pruneReqs wm now reqs = reqs := by
  simp only [pruneReqs]
  exact List.filter_eq_self.mpr (fun x hx => by simpa using h x hx)

theorem waitForSlot_immediate (mr : Nat) (wm now : Int) (reqs : List Int)
    (h : (pruneReqs wm now reqs).length < mr) :
    waitForSlot mr wm now reqs = (now, pruneReqs wm now reqs ++ [now]) := by
  simp only [waitForSlot, waitForSlotGo]
  rw [if_neg (by omega)]

theorem runFold_no_wait (mr : Nat) (wm t₁ tn : Int) :
    ∀ (times : List Int) (s : List Int),
      (∀ x ∈ s, t₁ ≤ x) →
      (∀ x ∈ times, t₁ ≤ x ∧ x ≤ tn) →
      tn - t₁ < wm →
      s.length + times.length ≤ mr →
      times.foldl (fun reqs t => (waitForSlot mr wm t reqs).2) s = s ++ times := by
  intro times
  induction times with
  | nil => intro s _ _ _ _; simp
  | cons t ts ih =>
    intro s hs htimes hwin hlen
    have ht : t₁ ≤ t ∧ t ≤ tn := htimes t (by simp)
    have hprune : pruneReqs wm t s = s := by
      refine pruneReqs_eq_self wm t s (fun x hx => ?_)
      have := hs x hx
      omega
    have hstep : waitForSlot mr wm t s = (t, s ++ [t]) := by
      rw [waitForSlot_immediate mr wm t s (by
        rw [hprune]
        simp at hlen
        omega)]
      rw [hprune]
    simp only [List.foldl_cons, hstep]
    rw [ih (s ++ [t])
      (by
        intro x hx
        rcases List.mem_append.mp hx with h | h
        · exact hs x h
        · simp at h; omega)
      (fun x hx => htimes x (by simp [hx]))
      hwin
      (by simp at hlen ⊢; omega)]
    simp

/-- C8: with limiter configuration `(maxRequests, windowMs)`, after
`maxRequests` acquire calls at nondecreasing times `ts` (first call at
`t₁`), all within one window of each other, each of those calls returns
immediately and records its call time; the `(maxRequests+1)`-th call at
time `tn` suspends and returns only at time `t₁ + windowMs`, i.e. after a
wait of exactly `windowMs - (tn - t₁)` (which is at least
`windowMs - elapsed`), re-prunes the expired entries after waking, and
records its return time. -/
theorem claim_C8_rate_limiter (mr : Nat) (wm : Int) (ts : List Int) (t₁ tn : Int)
    (hmr : 1 ≤ mr) (hlen : ts.length = mr)
    (hhead : ts.head? = some t₁)
    (hbound : ∀ x ∈ ts, t₁ ≤ x ∧ x ≤ tn)
    (hwin : tn - t₁ < wm) :
    runAcquires mr wm ts = ts ∧
      waitForSlot mr wm tn ts =
        (t₁ + wm, ts.filter (fun x => t₁ < x) ++ [t₁ + wm]) ∧
      tn + (wm - (tn - t₁)) = t₁ + wm := by
  obtain ⟨rest, hts⟩ : ∃ rest, ts = t₁ :: rest := by
    cases ts with
    | nil => simp at hhead
    | cons a l =>
      have ha : a = t₁ := by simpa using hhead
      exact ⟨l, by rw [ha]⟩
  have ht₁ : t₁ ≤ tn := (hbound t₁ (by simp [hts])).2
  refine ⟨?_, ?_, by omega⟩
  · simpa [runAcquires] using
      runFold_no_wait mr wm t₁ tn ts [] (by simp) hbound hwin (by simp [hlen])
  · have hprune1 : pruneReqs wm tn ts = ts := by
      refine pruneReqs_eq_self wm tn ts (fun x hx => ?_)
      have := hbound x hx
      omega
    have hfuel : ts.length + 1 = mr + 1 := by omega
    simp only [waitForSlot, hfuel, waitForSlotGo, hprune1, hhead]
    rw [if_pos (le_of_eq hlen.symm), if_pos (by omega)]
    have hnow : tn + (wm - (tn - t₁)) = t₁ + wm := by omega
    rw [hnow]
    have hprune2 : pruneReqs wm (t₁ + wm) ts = ts.filter (fun x => t₁ < x) := by
      simp only [pruneReqs]
      refine List.filter_congr (fun x _ => ?_)
      simp only [decide_eq_decide]
      omega
    have hlen2 : (ts.filter (fun x => t₁ < x)).length < mr := by
      have : (ts.filter (fun x => t₁ < x)).length ≤ rest.length := by
        rw [hts]
        simp only [List.filter_cons]
        rw [if_neg (by simp)]
        exact List.length_filter_le _ _
      have hr : rest.length + 1 = mr := by
        rw [hts] at hlen
        simpa using hlen
      omega
    rw [hlen]
    cases hm : mr with
    | zero => omega
    | succ k =>
      simp only [waitForSlotGo, hprune2]
      rw [if_neg (by omega)]

/-- C8 witness: configuration `(2, 1000)`, calls at times 0 and 10, third
call at time 500: the first two calls record their times. -/
theorem claim_C8_witness : runAcquires 2 1000 [0, 10] = [0, 10] :=
  (claim_C8_rate_limiter 2 1000 [0, 10] 0 500 (by decide) (by decide) (by decide)
    (by decide) (by decide)).1

theorem genRetryGo_spec (oracle : Nat → GenOutcome) (maxRetries j : Nat)
    (hj2 : j ≤ maxRetries) :
    ∀ (fuel attempt : Nat), fuel + attempt = maxRetries + 1 → 1 ≤ attempt → attempt ≤ j →
      (∀ k, attempt ≤ k → k < j → ∃ m, oracle k = GenOutcome.err m ∧ isRateLimitMsg m = true) →
      (∀ t, oracle j = GenOutcome.ok t →
          genRetryGo oracle maxRetries fuel attempt =
            ((List.range' attempt (j - attempt)).map (fun k => 2 ^ k * 1000),
              Except.ok (some t))) ∧
      (∀ m, oracle j = GenOutcome.err m → isRateLimitMsg m = false →
          genRetryGo oracle maxRetries fuel attempt =
            ((List.range' attempt (j - attempt)).map (fun k => 2 ^ k * 1000),
              Except.error m)) ∧
      (j = maxRetries → ∀ m, oracle j = GenOutcome.err m → isRateLimitMsg m = true →
          genRetryGo oracle maxRetries fuel attempt =
            ((List.range' attempt (j - attempt)).map (fun k => 2 ^ k * 1000),
              Except.error (rateLimitExceededMsg maxRetries))) := by
  intro fuel
  induction fuel with
  | zero => intro attempt h1 _ h3 _; omega
  | succ f ih =>
    intro attempt hfa h1 haj hpre
    by_cases heq : attempt = j
    · subst heq
      have hz : attempt - attempt = 0 := Nat.sub_self attempt
      refine ⟨?_, ?_, ?_⟩
      · intro t hok
        simp [genRetryGo, hok, hz]
      · intro m herr hrl
        simp [genRetryGo, herr, hrl, hz]
      · intro hjm m herr hrl
        have hnlt : ¬ attempt < maxRetries := by omega
        simp [genRetryGo, herr, hrl, hz, hnlt]
    · have hlt : attempt < j := by omega
      obtain ⟨m₀, hm₀, hrl₀⟩ := hpre attempt (le_refl _) hlt
      have ham : attempt < maxRetries := by omega
      have hrec := ih (attempt + 1) (by omega) (by omega) (by omega)
        (fun k hk1 hk2 => hpre k (by omega) hk2)
      have hrange : List.range' attempt (j - attempt) =
          attempt :: List.range' (attempt + 1) (j - (attempt + 1)) := by
        have hst : j - attempt = (j - (attempt + 1)) + 1 := by omega
        rw [hst]
        rfl
      refine ⟨?_, ?_, ?_⟩
      · intro t hok
        have hr := hrec.1 t hok
        simp [genRetryGo, hm₀, hrl₀, ham, hr, hrange]
      · intro m herr hrl
        have hr := hrec.2.1 m herr hrl
        simp [genRetryGo, hm₀, hrl₀, ham, hr, hrange]
      · intro hjm m herr hrl
        have hr := hrec.2.2 hjm m herr hrl
        simp [genRetryGo, hm₀, hrl₀, ham, hr, hrange]

/-- C4: for `maxRetries ≥ 1`, if every attempt before `j` fails with a
throttling-classified message (so the client sleeps `2^attempt · 1000` ms
after each and retries), then: a success at attempt `j` returns the text
with exactly those backoff sleeps; a non-throttling failure at attempt `j`
fails immediately with the original message; and a throttling failure at
attempt `j = maxRetries` fails with the rate-limit-exceeded error. -/
theorem claim_C4_generate_retry (oracle : Nat → GenOutcome) (maxRetries j : Nat)
    (_hmr : 1 ≤ maxRetries) (hj1 : 1 ≤ j) (hj2 : j ≤ maxRetries)
    (hpre : ∀ k, 1 ≤ k → k < j → ∃ m, oracle k = GenOutcome.err m ∧ isRateLimitMsg m = true) :
    (∀ t, oracle j = GenOutcome.ok t → generateContentWithRetry oracle maxRetries =
      ((List.range' 1 (j - 1)).map (fun k => 2 ^ k * 1000), Except.ok (some t))) ∧
    (∀ m, oracle j = GenOutcome.err m → isRateLimitMsg m = false →
      generateContentWithRetry oracle maxRetries =
        ((List.range' 1 (j - 1)).map (fun k => 2 ^ k * 1000), Except.error m)) ∧
    (j = maxRetries → ∀ m, oracle j = GenOutcome.err m → isRateLimitMsg m = true →
      generateContentWithRetry oracle maxRetries =
        ((List.range' 1 (j - 1)).map (fun k => 2 ^ k * 1000),
          Except.error (rateLimitExceededMsg maxRetries))) :=
  genRetryGo_spec oracle maxRetries j hj2 maxRetries 1 (by omega) (by omega) hj1 hpre

/-- C4 witness: an oracle that throttles on attempt 1 (message `429`) and
succeeds on attempt 2 yields one backoff sleep and the generated text. -/
theorem claim_C4_witness :
    generateContentWithRetry
        (fun k => if k = 1 then GenOutcome.err ("429".toList) else GenOutcome.ok ("ok".toList))
        3 =
      ((List.range' 1 (2 - 1)).map (fun k => 2 ^ k * 1000), Except.ok (some ("ok".toList))) :=
  (claim_C4_generate_retry _ 3 2 (by omega) (by omega) (by omega)
      (fun k h1 h2 =>
        ⟨"429".toList, by
          have hk : k = 1 := by omega
          subst hk
          simp, by decide⟩)).1
    ("ok".toList) (by simp)

theorem maxTs_mem : ∀ (l : List Int) (v : Int), maxTs l = some v → v ∈ l := by
  intro l
  induction l with
  | nil => intro v h; simp [maxTs] at h
  | cons t ts ih =>
    intro v h
    simp only [maxTs] at h
    rcases hm : maxTs ts with _ | u
    · rw [hm] at h
      simp only [Option.some.injEq] at h
      simp [← h]
    · rw [hm] at h
      simp only [Option.some.injEq] at h
      rcases max_choice t u with hc | hc
      · rw [hc] at h
        simp [← h]
      · rw [hc] at h
        exact List.mem_cons_of_mem t (ih v (by rw [hm, h]))

theorem maxTs_append_big : ∀ (l : List Int) (a : Int), (∀ x ∈ l, x < a) →
    maxTs (l ++ [a]) = some a := by
  intro l
  induction l with
  | nil => intro a _; simp [maxTs]
  | cons t ts ih =>
    intro a h
    have ht : t < a := h t (by simp)
    have hr := ih a (fun x hx => h x (by simp [hx]))
    rw [List.cons_append]
    have hstep : maxTs (t :: (ts ++ [a])) = some (max t a) := by
      simp only [maxTs]
      rw [hr]
    rw [hstep, max_eq_right (le_of_lt ht)]

/-- C10: the `/summarize` handler reads the watermark before appending the
run's own trigger record, so (with store-assigned timestamps increasing)
the watermark used is that of the most recent previous trigger — never the
current invocation's — while the next invocation will see the current
one. -/
theorem claim_C10_watermark_order (commands : List TriggerRecord) (newTs : Int)
    (hmono : ∀ r ∈ commands, r.timestamp < newTs) :
    (summarizeStoreStep commands newTs).1 = getLastSummaryTimestamp commands ∧
    (summarizeStoreStep commands newTs).1 ≠ some newTs ∧
    getLastSummaryTimestamp (summarizeStoreStep commands newTs).2 = some newTs := by
  refine ⟨rfl, ?_, ?_⟩
  · intro hcontra
    have hmax : maxTs ((commands.filter
        (fun r => r.commandText = "/summarize".toList)).map (fun r => r.timestamp)) =
        some newTs := by
      simpa [summarizeStoreStep, getLastSummaryTimestamp] using hcontra
    have hmem := maxTs_mem _ _ hmax
    rcases List.mem_map.mp hmem with ⟨r, hrf, hrt⟩
    have := hmono r (List.mem_of_mem_filter hrf)
    omega
  · have hfil : (commands ++ [(⟨"/summarize".toList, newTs⟩ : TriggerRecord)]).filter
        (fun r => r.commandText = "/summarize".toList) =
      commands.filter (fun r => r.commandText = "/summarize".toList) ++
        [(⟨"/summarize".toList, newTs⟩ : TriggerRecord)] := by
      rw [List.filter_append]
      simp
    simp only [summarizeStoreStep, getLastSummaryTimestamp, hfil, List.map_append,
      List.map_cons, List.map_nil]
    apply maxTs_append_big
    intro x hx
    rcases List.mem_map.mp hx with ⟨r, hrf, hrt⟩
    have := hmono r (List.mem_of_mem_filter hrf)
    omega

/-- C10 witness: after a run at store time 10 over a store holding one
trigger at time 5, the next read returns 10. -/
theorem claim_C10_witness :
    getLastSummaryTimestamp
        (summarizeStoreStep [⟨"/summarize".toList, 5⟩] 10).2 = some 10 :=
  (claim_C10_watermark_order [⟨"/summarize".toList, 5⟩] 10 (by decide)).2.2

theorem runBatchesGo_step {α : Type} (batchRun : List α → List Act × Except Str (List Str))
    (sep : Str) (ev : Event) (bs tb fuel bn : Nat) (chats : List α) (h : chats ≠ []) :
    runBatchesGo batchRun sep ev bs tb (fuel + 1) bn chats =
      (match (batchRun (chats.take bs)).2 with
       | Except.error m => ((batchRun (chats.take bs)).1, some m)
       | Except.ok summaries =>
         if summaries.isEmpty then
           ((batchRun (chats.take bs)).1 ++
              (runBatchesGo batchRun sep ev bs tb fuel (bn + 1) (chats.drop bs)).1,
            (runBatchesGo batchRun sep ev bs tb fuel (bn + 1) (chats.drop bs)).2)
         else
           ((batchRun (chats.take bs)).1 ++
              (if bn = 1 then
                Act.reply ev.replyToken
                  (splitIntoMessages (digestHeader tb bn ++ joinWith sep summaries) 4000)
               else
                Act.push (targetOf ev)
                  (splitIntoMessages (digestHeader tb bn ++ joinWith sep summaries) 4000)) ::
              ((if (chats.drop bs).isEmpty then ([] : List Act) else [Act.sleep 60000]) ++
               (runBatchesGo batchRun sep ev bs tb fuel (bn + 1) (chats.drop bs)).1),
            (runBatchesGo batchRun sep ev bs tb fuel (bn + 1) (chats.drop bs)).2)) := by
  cases chats with
  | nil => exact absurd rfl h
  | cons c cs =>
    simp only [runBatchesGo]
    cases hx : (batchRun ((c :: cs).take bs)).2 with
    | error m => simp
    | ok summaries => simp

theorem runBatchChats_good (gen : Str → Except Str Str) (w : Option Int) :
    ∀ (batch : List ChatDoc),
      (∀ c ∈ batch, selectMessages w c.msgs ≠ [] → ∃ t, gen (chatPrompt1 w c) = Except.ok t) →
      runBatchChats gen w batch =
        ((batch.filter (elig w)).map (fun c => Act.genCall (chatPrompt1 w c)),
          Except.ok ((batch.filter (elig w)).map (chatSummaryE gen w))) := by
  intro batch
  induction batch with
  | nil => intro _; rfl
  | cons c cs ih =>
    intro hgood
    have hcs : ∀ d ∈ cs, selectMessages w d.msgs ≠ [] → ∃ t, gen (chatPrompt1 w d) = Except.ok t :=
      fun d hd => hgood d (List.mem_cons_of_mem c hd)
    rcases hsel : selectMessages w c.msgs with _ | ⟨first, rest⟩
    · have helig : elig w c = false := by simp [elig, hsel]
      simp only [runBatchChats, hsel, List.filter_cons, helig]
      simpa using ih hcs
    · have helig : elig w c = true := by simp [elig, hsel]
      obtain ⟨t, hok⟩ := hgood c (by simp) (by simp [hsel])
      have hp : chatPrompt1 w c =
          mkPrompt1 (chatNameOf first) (conversationTextOf (first :: rest)) := by
        simp [chatPrompt1, hsel]
      have hsum : chatSummaryE gen w c = entry1 (chatTypeOf first) (chatNameOf first) t := by
        simp [chatSummaryE, hsel, genText, hok]
      rw [hp] at hok
      simp only [runBatchChats, hsel, hok, ih hcs, List.filter_cons, helig]
      simp [← hp, hsum, Except.map]

theorem filter_isGenCall_map_genCall {α : Type} (l : List α) (f : α → Str) :
    (l.map (fun c => Act.genCall (f c))).filter isGenCall =
      l.map (fun c => Act.genCall (f c)) := by
  induction l with
  | nil => rfl
  | cons c cs ih => simp [isGenCall, ih]

theorem filter_isDelivery_map_genCall {α : Type} (l : List α) (f : α → Str) :
    (l.map (fun c => Act.genCall (f c))).filter isDelivery = [] := by
  induction l with
  | nil => rfl
  | cons c cs ih => simp [isDelivery, ih]

theorem runBatchChats_abort (gen : Str → Except Str Str) (w : Option Int)
    (cbad : ChatDoc) (em : Str)
    (hbsel : selectMessages w cbad.msgs ≠ [])
    (herr : gen (chatPrompt1 w cbad) = Except.error em) :
    ∀ (pre : List ChatDoc) (post : List ChatDoc),
      (∀ c ∈ pre, selectMessages w c.msgs ≠ [] → ∃ t, gen (chatPrompt1 w c) = Except.ok t) →
      runBatchChats gen w (pre ++ cbad :: post) =
        ((pre.filter (elig w)).map (fun c => Act.genCall (chatPrompt1 w c)) ++
          [Act.genCall (chatPrompt1 w cbad)], Except.error em) := by
  intro pre
  induction pre with
  | nil =>
    intro post _
    rcases hsel : selectMessages w cbad.msgs with _ | ⟨first, rest⟩
    · exact absurd hsel hbsel
    · have hp : chatPrompt1 w cbad =
          mkPrompt1 (chatNameOf first) (conversationTextOf (first :: rest)) := by
        simp [chatPrompt1, hsel]
      rw [hp] at herr
      simp only [List.nil_append, runBatchChats, hsel, herr]
      simp [← hp]
  | cons c cs ih =>
    intro post hgood
    have hcs : ∀ d ∈ cs, selectMessages w d.msgs ≠ [] → ∃ t, gen (chatPrompt1 w d) = Except.ok t :=
      fun d hd => hgood d (List.mem_cons_of_mem c hd)
    rcases hcsel : selectMessages w c.msgs with _ | ⟨first, rest⟩
    · have helig : elig w c = false := by simp [elig, hcsel]
      simp only [List.cons_append, runBatchChats, hcsel, List.filter_cons, helig]
      simpa using ih post hcs
    · have helig : elig w c = true := by simp [elig, hcsel]
      obtain ⟨t, hok⟩ := hgood c (by simp) (by simp [hcsel])
      have hp : chatPrompt1 w c =
          mkPrompt1 (chatNameOf first) (conversationTextOf (first :: rest)) := by
        simp [chatPrompt1, hcsel]
      rw [hp] at hok
      simp only [List.cons_append, runBatchChats, hcsel, hok]
      simp only [List.append_eq]
      rw [ih post hcs]
      simp [← hp, List.filter_cons, helig, Except.map]

theorem isGenCall_send_false (bn : Nat) (tk tgt : Str) (segs : List Str) :
    isGenCall (if bn = 1 then Act.reply tk segs else Act.push tgt segs) = false := by
  split <;> rfl

theorem runBatchesGo_abort (gen : Str → Except Str Str) (w : Option Int) (ev : Event)
    (bs tb : Nat) (hbs : 1 ≤ bs) (cbad : ChatDoc) (em : Str)
    (hbsel : selectMessages w cbad.msgs ≠ [])
    (herr : gen (chatPrompt1 w cbad) = Except.error em) :
    ∀ (fuel : Nat) (pre post : List ChatDoc) (bn : Nat),
      (pre ++ cbad :: post).length ≤ fuel →
      (∀ c ∈ pre, selectMessages w c.msgs ≠ [] → ∃ t, gen (chatPrompt1 w c) = Except.ok t) →
      (runBatchesGo (runBatchChats gen w) sep1 ev bs tb fuel bn (pre ++ cbad :: post)).2
          = some em ∧
        (runBatchesGo (runBatchChats gen w) sep1 ev bs tb fuel bn
            (pre ++ cbad :: post)).1.filter isGenCall =
          (pre.filter (elig w)).map (fun c => Act.genCall (chatPrompt1 w c)) ++
            [Act.genCall (chatPrompt1 w cbad)] := by
  intro fuel
  induction fuel with
  | zero =>
    intro pre post bn hle _
    simp at hle
  | succ f ih =>
    intro pre post bn hle hgood
    have hne : pre ++ cbad :: post ≠ [] := by simp
    rw [runBatchesGo_step _ _ _ _ _ _ _ _ hne]
    by_cases hcase : pre.length < bs
    · have htail : bs - pre.length = (bs - pre.length - 1) + 1 := by omega
      have htake : (pre ++ cbad :: post).take bs =
          pre ++ cbad :: post.take (bs - pre.length - 1) := by
        rw [List.take_append_eq_append_take, List.take_of_length_le (le_of_lt hcase), htail]
        rfl
      rw [htake, runBatchChats_abort gen w cbad em hbsel herr pre
        (post.take (bs - pre.length - 1)) hgood]
      refine ⟨rfl, ?_⟩
      rw [List.filter_append, filter_isGenCall_map_genCall]
      simp [isGenCall]
    · push_neg at hcase
      have hz : bs - pre.length = 0 := by omega
      have htake : (pre ++ cbad :: post).take bs = pre.take bs := by
        rw [List.take_append_eq_append_take, hz]
        simp
      have hdrop : (pre ++ cbad :: post).drop bs = pre.drop bs ++ cbad :: post := by
        rw [List.drop_append_eq_append_drop, hz]
        simp
      have hgoodtake : ∀ c ∈ pre.take bs, selectMessages w c.msgs ≠ [] →
          ∃ t, gen (chatPrompt1 w c) = Except.ok t :=
        fun c hc => hgood c (List.take_subset bs pre hc)
      have hgooddrop : ∀ c ∈ pre.drop bs, selectMessages w c.msgs ≠ [] →
          ∃ t, gen (chatPrompt1 w c) = Except.ok t :=
        fun c hc => hgood c (List.drop_subset bs pre hc)
      have hlen2 : (pre.drop bs ++ cbad :: post).length ≤ f := by
        simp only [List.length_append, List.length_cons, List.length_drop] at hle ⊢
        omega
      have hIH := ih (pre.drop bs) post (bn + 1) hlen2 hgooddrop
      rw [htake, hdrop, runBatchChats_good gen w (pre.take bs) hgoodtake]
      have hsplit : pre.filter (elig w) =
          (pre.take bs).filter (elig w) ++ (pre.drop bs).filter (elig w) := by
        rw [← List.filter_append, List.take_append_drop]
      by_cases hemp : (pre.take bs).filter (elig w) = []
      · simp only [hemp, List.map_nil, List.isEmpty_nil, if_true]
        refine ⟨hIH.1, ?_⟩
        rw [List.filter_append, hIH.2, hsplit, hemp]
        simp
      · have hnemp : (((pre.take bs).filter (elig w)).map (chatSummaryE gen w)).isEmpty = false := by
          simp [List.isEmpty_iff, hemp]
        simp only [hnemp, Bool.false_eq_true, if_false]
        refine ⟨hIH.1, ?_⟩
        rw [List.filter_append, filter_isGenCall_map_genCall, List.filter_cons]
        rw [isGenCall_send_false]
        simp only [Bool.false_eq_true, if_false]
        rw [List.filter_append, hIH.2]
        have hdelay : ((if ((pre.drop bs ++ cbad :: post)).isEmpty then ([] : List Act)
            else [Act.sleep 60000]).filter isGenCall) = [] := by
          split <;> rfl
        rw [hdelay, hsplit]
        simp

theorem strStarts_nil : ∀ s : Str, strStarts s [] = true := by
  intro s
  cases s <;> rfl

theorem strStarts_append : ∀ (pat rest : Str), strStarts (pat ++ rest) pat = true := by
  intro pat
  induction pat with
  | nil => intro rest; simpa using strStarts_nil rest
  | cons c p ih => intro rest; simp [strStarts, ih]

theorem containsSub_self_append (pat rest : Str) : containsSub (pat ++ rest) pat = true := by
  cases pat with
  | nil =>
    cases rest with
    | nil => decide
    | cons c t => simp [containsSub, strStarts_nil]
  | cons c p =>
    have h := strStarts_append (c :: p) rest
    simp only [containsSub]
    rw [h]
    simp

theorem errorReplyText_rateLimit (n : Nat) :
    errorReplyText (rateLimitExceededMsg n) =
      ("â° I'm currently rate limited by the AI service. Please wait a moment and try again in a few minutes.").toList := by
  have hdecomp : rateLimitExceededMsg n =
      "Rate limit exceeded".toList ++
        (" after ".toList ++ natToStr n ++ " attempts. Please try again later.".toList) := by
    simp only [rateLimitExceededMsg]
    have : ("Rate limit exceeded after ".toList : Str) =
        "Rate limit exceeded".toList ++ " after ".toList := by decide
    rw [this]
    simp
  have h1 : containsSub (rateLimitExceededMsg n) ("Rate limit exceeded".toList) = true := by
    rw [hdecomp]
    exact containsSub_self_append _ _
  have h0 : rateLimitExceededMsg n ≠ [] := by
    intro hnil
    rw [hnil] at h1
    have hfalse : containsSub ([] : Str) ("Rate limit exceeded".toList) = false := by decide
    rw [hfalse] at h1
    exact absurd h1 (by simp)
  have h0' : (rateLimitExceededMsg n).isEmpty = false := by
    cases hm : rateLimitExceededMsg n with
    | nil => exact absurd hm h0
    | cons a l => rfl
  simp only [errorReplyText, h0', Bool.not_false, Bool.true_and, h1, cond_true]

/-- C5: when generation fails for some conversation `cbad` (after the
conversations `pre` whose generations all succeed), the whole run aborts
with that error: the only generation calls performed are those for the
eligible conversations of `pre` and the failing one — none for any later
conversation of the current or later batches; the handler then sends one
user-facing reply after the actions already performed (nothing delivered is
retracted), and that reply distinguishes the rate-limit-exhaustion message
('try again in a few minutes') from the generic notice used for other
upstream errors. -/
theorem claim_C5_generation_error_aborts (gen : Str → Except Str Str) (ev : Event)
    (w : Option Int) (pre post : List ChatDoc) (cbad : ChatDoc) (em : Str)
    (hgood : ∀ c ∈ pre, selectMessages w c.msgs ≠ [] → ∃ t, gen (chatPrompt1 w c) = Except.ok t)
    (hsel : selectMessages w cbad.msgs ≠ [])
    (herr : gen (chatPrompt1 w cbad) = Except.error em) :
    (processChatsInBatches gen ev (pre ++ cbad :: post) w 15).2 = some em ∧
    (processChatsInBatches gen ev (pre ++ cbad :: post) w 15).1.filter isGenCall =
      (pre.filter (elig w)).map (fun c => Act.genCall (chatPrompt1 w c)) ++
        [Act.genCall (chatPrompt1 w cbad)] ∧
    handleSummarizeErrors ev (processChatsInBatches gen ev (pre ++ cbad :: post) w 15) =
      (processChatsInBatches gen ev (pre ++ cbad :: post) w 15).1 ++
        [Act.reply ev.replyToken [errorReplyText em]] ∧
    (∀ n, errorReplyText (rateLimitExceededMsg n) =
      ("â° I'm currently rate limited by the AI service. Please wait a moment and try again in a few minutes.").toList) ∧
    (containsSub em ("Rate limit exceeded".toList) = false →
      containsSub em ("quota".toList) = false →
      containsSub em ("429".toList) = false →
      errorReplyText em =
        ("Sorry, I encountered an error while generating the summary.").toList) := by
  have habort := runBatchesGo_abort gen w ev 15
    (((pre ++ cbad :: post).length + 15 - 1) / 15) (by omega) cbad em hsel herr
    (pre ++ cbad :: post).length pre post 1 (le_refl _) hgood
  have hrun2 : (processChatsInBatches gen ev (pre ++ cbad :: post) w 15).2 = some em :=
    habort.1
  refine ⟨hrun2, habort.2, ?_, fun n => errorReplyText_rateLimit n, ?_⟩
  · simp [handleSummarizeErrors, hrun2]
  · intro h1 h2 h3
    simp only [errorReplyText, h1, h2, h3, Bool.and_false, cond_false]

/-- C5 witness: one conversation whose generation fails with `boom` makes
the run abort with that error. -/
theorem claim_C5_witness :
    (processChatsInBatches (fun _ => Except.error ("boom".toList))
        ⟨"tk".toList, none, "u".toList⟩
        [⟨"c".toList, [⟨"hi".toList, some 1, "a".toList, "user".toList, []⟩]⟩] none 15).2 =
      some ("boom".toList) :=
  (claim_C5_generation_error_aborts (fun _ => Except.error ("boom".toList))
      ⟨"tk".toList, none, "u".toList⟩ none []
      [] ⟨"c".toList, [⟨"hi".toList, some 1, "a".toList, "user".toList, []⟩]⟩
      ("boom".toList)
      (fun c hc => absurd hc (List.not_mem_nil c))
      (by decide)
      rfl).1

theorem filter_elig_eq_self (w : Option Int) (batch : List ChatDoc)
    (hsel : ∀ c ∈ batch, selectMessages w c.msgs ≠ []) :
    batch.filter (elig w) = batch := by
  refine List.filter_eq_self.mpr (fun c hc => ?_)
  rcases hm : selectMessages w c.msgs with _ | ⟨x, xs⟩
  · exact absurd hm (hsel c hc)
  · simp [elig, hm]

theorem runBatchesGo_good_step (gen : Str → Except Str Str) (w : Option Int) (ev : Event)
    (tb fuel bn : Nat) (chats : List ChatDoc)
    (hne : chats ≠ [])
    (hgood : ∀ c ∈ chats.take 15, ∃ t, gen (chatPrompt1 w c) = Except.ok t)
    (hsel : ∀ c ∈ chats.take 15, selectMessages w c.msgs ≠ []) :
    runBatchesGo (runBatchChats gen w) sep1 ev 15 tb (fuel + 1) bn chats =
      ((chats.take 15).map (fun c => Act.genCall (chatPrompt1 w c)) ++
        (if bn = 1 then Act.reply ev.replyToken (batchSegs gen w tb bn (chats.take 15))
         else Act.push (targetOf ev) (batchSegs gen w tb bn (chats.take 15))) ::
        ((if (chats.drop 15).isEmpty then ([] : List Act) else [Act.sleep 60000]) ++
         (runBatchesGo (runBatchChats gen w) sep1 ev 15 tb fuel (bn + 1) (chats.drop 15)).1),
       (runBatchesGo (runBatchChats gen w) sep1 ev 15 tb fuel (bn + 1) (chats.drop 15)).2) := by
  have hfil : (chats.take 15).filter (elig w) = chats.take 15 := filter_elig_eq_self w _ hsel
  have htne : chats.take 15 ≠ [] := by
    intro h
    have := congrArg List.length h
    simp only [List.length_take, List.length_nil] at this
    rcases chats with _ | ⟨c, cs⟩
    · exact hne rfl
    · simp at this
  have hnemp : ((chats.take 15).map (chatSummaryE gen w)).isEmpty = false := by
    cases hm : chats.take 15 with
    | nil => exact absurd hm htne
    | cons a l => simp
  rw [runBatchesGo_step _ _ _ _ _ _ _ _ hne,
    runBatchChats_good gen w (chats.take 15) (fun c hc _ => hgood c hc)]
  simp only [hfil, batchSegs, hnemp, Bool.false_eq_true, if_false]

/-- C3: over 32 conversations with batchSize 15 and a generation oracle
that succeeds on every prompt, the run forms exactly 3 consecutive batches
`chats.take 15`, `(chats.drop 15).take 15` (15 conversations each) and
`(chats.drop 15).drop 15` (2 conversations); the first batch's segments are
delivered via the reply bound to the triggering event and later batches via
push to the originating conversation; and a 60-second (60000 ms) sleep is
inserted exactly when more batches remain after the current one. -/
theorem claim_C3_batch_schedule (gen : Str → Except Str Str) (ev : Event) (w : Option Int)
    (chats : List ChatDoc)
    (hlen : chats.length = 32)
    (hsel : ∀ c ∈ chats, selectMessages w c.msgs ≠ [])
    (hok : ∀ c ∈ chats, ∃ t, gen (chatPrompt1 w c) = Except.ok t) :
    (processChatsInBatches gen ev chats w 15).1.filter isDelivery =
      [Act.reply ev.replyToken (batchSegs gen w 3 1 (chats.take 15)),
       Act.sleep 60000,
       Act.push (targetOf ev) (batchSegs gen w 3 2 ((chats.drop 15).take 15)),
       Act.sleep 60000,
       Act.push (targetOf ev) (batchSegs gen w 3 3 ((chats.drop 15).drop 15))] ∧
    (processChatsInBatches gen ev chats w 15).2 = none ∧
    (chats.take 15).length = 15 ∧ ((chats.drop 15).take 15).length = 15 ∧
      ((chats.drop 15).drop 15).length = 2 := by
  have hl1 : (chats.take 15).length = 15 := by simp [List.length_take, hlen]
  have hld1 : (chats.drop 15).length = 17 := by simp [List.length_drop, hlen]
  have hl2 : ((chats.drop 15).take 15).length = 15 := by simp [List.length_take, hld1]
  have hld2 : ((chats.drop 15).drop 15).length = 2 := by simp [List.length_drop]; omega
  have hne0 : chats ≠ [] := by intro h; rw [h] at hlen; simp at hlen
  have hne1 : chats.drop 15 ≠ [] := by intro h; rw [h] at hld1; simp at hld1
  have hne2 : (chats.drop 15).drop 15 ≠ [] := by intro h; rw [h] at hld2; simp at hld2
  have hie1 : (chats.drop 15).isEmpty = false := by
    cases hm : chats.drop 15 with
    | nil => exact absurd hm hne1
    | cons a l => rfl
  have hie2 : ((chats.drop 15).drop 15).isEmpty = false := by
    cases hm : (chats.drop 15).drop 15 with
    | nil => exact absurd hm hne2
    | cons a l => rfl
  have hnil3 : ((chats.drop 15).drop 15).drop 15 = [] := by
    have h0 : (((chats.drop 15).drop 15).drop 15).length = 0 := by
      simp [List.length_drop]; omega
    exact List.eq_nil_of_length_eq_zero h0
  have ht3 : ((chats.drop 15).drop 15).take 15 = (chats.drop 15).drop 15 :=
    List.take_of_length_le (by rw [hld2]; omega)
  have hsub1 : ∀ c ∈ chats.take 15, c ∈ chats := fun c hc => List.take_subset _ _ hc
  have hsub2 : ∀ c ∈ (chats.drop 15).take 15, c ∈ chats :=
    fun c hc => List.drop_subset _ _ (List.take_subset _ _ hc)
  have hsub3 : ∀ c ∈ ((chats.drop 15).drop 15).take 15, c ∈ chats :=
    fun c hc => List.drop_subset _ _ (List.drop_subset _ _ (List.take_subset _ _ hc))
  have hproc : processChatsInBatches gen ev chats w 15 =
      runBatchesGo (runBatchChats gen w) sep1 ev 15 3 32 1 chats := by
    simp only [processChatsInBatches, hlen]
  have key : (processChatsInBatches gen ev chats w 15).1.filter isDelivery =
      [Act.reply ev.replyToken (batchSegs gen w 3 1 (chats.take 15)),
       Act.sleep 60000,
       Act.push (targetOf ev) (batchSegs gen w 3 2 ((chats.drop 15).take 15)),
       Act.sleep 60000,
       Act.push (targetOf ev) (batchSegs gen w 3 3 ((chats.drop 15).drop 15))] ∧
      (processChatsInBatches gen ev chats w 15).2 = none := by
    rw [hproc]
    rw [show (32 : Nat) = 31 + 1 from by norm_num]
    rw [runBatchesGo_good_step gen w ev 3 31 1 chats hne0
      (fun c hc => hok c (hsub1 c hc)) (fun c hc => hsel c (hsub1 c hc))]
    rw [show (31 : Nat) = 30 + 1 from by norm_num]
    rw [runBatchesGo_good_step gen w ev 3 30 (1 + 1) (chats.drop 15) hne1
      (fun c hc => hok c (hsub2 c hc)) (fun c hc => hsel c (hsub2 c hc))]
    rw [show (30 : Nat) = 29 + 1 from by norm_num]
    rw [runBatchesGo_good_step gen w ev 3 29 (1 + 1 + 1) ((chats.drop 15).drop 15) hne2
      (fun c hc => hok c (hsub3 c hc)) (fun c hc => hsel c (hsub3 c hc))]
    rw [hnil3]
    rw [show runBatchesGo (runBatchChats gen w) sep1 ev 15 3 29 (1 + 1 + 1 + 1)
      ([] : List ChatDoc) = ([], none) from rfl]
    rw [ht3]
    constructor
    · simp [List.filter_append, ← List.map_take, ← List.map_drop,
        filter_isDelivery_map_genCall, isDelivery, hie1, hie2, hlen]
    · rfl
  exact ⟨key.1, key.2, hl1, hl2, hld2⟩

/-- C3 witness: 32 one-message conversations, a constant generation oracle,
no watermark: the run finishes with no error. -/
theorem claim_C3_witness :
    (processChatsInBatches (fun _ => Except.ok ("S".toList))
        ⟨"tk".toList, none, "u".toList⟩
        ((List.range 32).map
          (fun i => ⟨natToStr i, [⟨"hi".toList, some ((i : Int) + 1), "a".toList,
            "user".toList, []⟩]⟩))
        none 15).2 = none :=
  (claim_C3_batch_schedule (fun _ => Except.ok ("S".toList))
      ⟨"tk".toList, none, "u".toList⟩ none
      ((List.range 32).map
        (fun i => ⟨natToStr i, [⟨"hi".toList, some ((i : Int) + 1), "a".toList,
          "user".toList, []⟩]⟩))
      (by decide)
      (by decide)
      (fun c _ => ⟨"S".toList, rfl⟩)).2.1

/-- C9 counterexample: with no watermark and 31 chronological messages of
which the newest is the trigger command, the direct path fetches the last
30 messages and then filters the trigger away (29 remain), while the
collection-group path filters first and then takes the last 30 of the
sorted remainder (30 remain): the two paths select different message
sets for the same conversation, same messages and same (absent)
watermark. -/
theorem claim_C9_counterexample :
    selectMessages none
        ((List.range 31).map
          (fun i => (⟨(if i = 30 then "/summarize" else "hi").toList, some ((i : Int) + 1),
            "u".toList, "user".toList, []⟩ : Message))) ≠
      selectMessagesCG none
        ((List.range 31).map
          (fun i => (⟨(if i = 30 then "/summarize" else "hi").toList, some ((i : Int) + 1),
            "u".toList, "user".toList, []⟩ : Message))) := by
  decide

theorem selectMessages_eq_CG (t : Int) (msgs : List Message) (hlen : msgs.length ≤ 100) :
    selectMessages (some t) msgs = selectMessagesCG (some t) msgs := by
  simp only [selectMessages, selectMessagesCG, Option.isSome_some, if_true]
  rw [List.take_of_length_le (by simpa using hlen), List.reverse_reverse]

theorem isEmpty_map {α β : Type} (f : α → β) (l : List α) :
    (l.map f).isEmpty = l.isEmpty := by
  cases l <;> rfl

theorem runBatch_shape (gen : Str → Except Str Str) (t : Int)
    (hgen : ∀ p, ∃ u, gen p = Except.ok u) :
    ∀ (batch : List ChatDoc), (∀ c ∈ batch, c.msgs.length ≤ 100) →
      ((runBatchChats gen (some t) batch).1.map shapeOf =
        (runBatchEntries gen (some t) (batch.map chatToEntry)).1.map shapeOf) ∧
      ∃ l1 l2, (runBatchChats gen (some t) batch).2 = Except.ok l1 ∧
        (runBatchEntries gen (some t) (batch.map chatToEntry)).2 = Except.ok l2 ∧
        l1.length = l2.length := by
  intro batch
  induction batch with
  | nil => exact fun _ => ⟨rfl, [], [], rfl, rfl, rfl⟩
  | cons c cs ih =>
    intro hlen
    obtain ⟨hsh, l1, l2, hr1, hr2, hll⟩ := ih (fun d hd => hlen d (List.mem_cons_of_mem c hd))
    have heq : selectMessagesCG (some t) c.msgs = selectMessages (some t) c.msgs :=
      (selectMessages_eq_CG t c.msgs (hlen c (List.mem_cons_self c cs))).symm
    rcases hsel1 : selectMessages (some t) c.msgs with _ | ⟨first, rest⟩
    · rw [hsel1] at heq
      refine ⟨?_, l1, l2, ?_, ?_, hll⟩
      · simp only [runBatchChats, hsel1, List.map_cons, runBatchEntries, chatToEntry, heq]
        exact hsh
      · simp only [runBatchChats, hsel1]
        exact hr1
      · simp only [List.map_cons, runBatchEntries, chatToEntry, heq]
        exact hr2
    · rw [hsel1] at heq
      obtain ⟨u1, hu1⟩ := hgen (mkPrompt1 (chatNameOf first) (conversationTextOf (first :: rest)))
      obtain ⟨u2, hu2⟩ := hgen (mkPrompt2 (chatNameOf first) (conversationTextOf (first :: rest)))
      refine ⟨?_, entry1 (chatTypeOf first) (chatNameOf first) u1 :: l1,
        entry2 (chatTypeOf first) (chatNameOf first) u2 :: l2, ?_, ?_, by simp [hll]⟩
      · simp only [runBatchChats, hsel1, hu1, List.map_cons, runBatchEntries, chatToEntry,
          heq, hu2, List.map_append]
        simp only [List.map_cons, shapeOf]
        rw [hsh]
      · simp only [runBatchChats, hsel1, hu1]
        rw [hr1]
        rfl
      · simp only [List.map_cons, runBatchEntries, chatToEntry, heq, hu2]
        rw [hr2]
        rfl

theorem runBatches_shape (gen : Str → Except Str Str) (t : Int) (ev : Event) (bs tb : Nat)
    (hgen : ∀ p, ∃ u, gen p = Except.ok u) :
    ∀ (fuel bn : Nat) (chats : List ChatDoc), (∀ c ∈ chats, c.msgs.length ≤ 100) →
      ((runBatchesGo (runBatchChats gen (some t)) sep1 ev bs tb fuel bn chats).1.map shapeOf =
        (runBatchesGo (runBatchEntries gen (some t)) sep2 ev bs tb fuel bn
          (chats.map chatToEntry)).1.map shapeOf) ∧
      (runBatchesGo (runBatchChats gen (some t)) sep1 ev bs tb fuel bn chats).2 = none ∧
      (runBatchesGo (runBatchEntries gen (some t)) sep2 ev bs tb fuel bn
        (chats.map chatToEntry)).2 = none := by
  intro fuel
  induction fuel with
  | zero =>
    intro bn chats _
    cases chats with
    | nil => exact ⟨rfl, rfl, rfl⟩
    | cons c cs => exact ⟨rfl, rfl, rfl⟩
  | succ f ih =>
    intro bn chats hlen
    cases chats with
    | nil => exact ⟨rfl, rfl, rfl⟩
    | cons c cs =>
      have hne1 : (c :: cs) ≠ [] := by simp
      have hne2 : ((c :: cs).map chatToEntry) ≠ [] := by simp
      rw [runBatchesGo_step _ _ _ _ _ _ _ _ hne1, runBatchesGo_step _ _ _ _ _ _ _ _ hne2]
      have htake : ((c :: cs).map chatToEntry).take bs = ((c :: cs).take bs).map chatToEntry :=
        (List.map_take chatToEntry (c :: cs) bs).symm
      have hdrop : ((c :: cs).map chatToEntry).drop bs = ((c :: cs).drop bs).map chatToEntry :=
        (List.map_drop chatToEntry (c :: cs) bs).symm
      rw [htake, hdrop]
      obtain ⟨hsh, l1, l2, hr1, hr2, hll⟩ := runBatch_shape gen t hgen ((c :: cs).take bs)
        (fun d hd => hlen d (List.take_subset _ _ hd))
      obtain ⟨ihsh, ih1, ih2⟩ := ih (bn + 1) ((c :: cs).drop bs)
        (fun d hd => hlen d (List.drop_subset _ _ hd))
      have hemp : l1.isEmpty = l2.isEmpty := by
        cases l1 <;> cases l2 <;> simp_all
      simp only [hr1, hr2]
      by_cases h1 : l1.isEmpty = true
      · have h2 : l2.isEmpty = true := by rw [← hemp]; exact h1
        simp only [h1, h2, if_true]
        exact ⟨by simp only [List.map_append, hsh, ihsh], ih1, ih2⟩
      · have h1' : l1.isEmpty = false := by
          cases hx : l1.isEmpty
          · rfl
          · exact absurd hx h1
        have h2' : l2.isEmpty = false := by rw [← hemp]; exact h1'
        have hdel : (((c :: cs).drop bs).map chatToEntry).isEmpty = ((c :: cs).drop bs).isEmpty :=
          isEmpty_map _ _
        simp only [h1', h2', Bool.false_eq_true, if_false, hdel]
        refine ⟨?_, ih1, ih2⟩
        simp only [List.map_append, List.map_cons, ihsh]
        by_cases hbn : bn = 1 <;>
          by_cases hie : ((c :: cs).drop bs).isEmpty = true <;>
            simp [hbn, hie, shapeOf, hsh, ihsh]

/-- C9 amended: the two batch-processing paths agree only partially.  When
a watermark is present and each conversation holds at most 100 messages
(so the direct path's bounded fetch returns the full log), both paths
select the same per-conversation message sets, and — for a generation
oracle that succeeds on every prompt — produce action traces of identical
shape: the same generation calls per batch, the same reply-then-push
dispatch and the same sleep placement, completing without error.  They
still differ in prompt template, digest entry format and separator (the
delivered texts), and their no-watermark selections differ
(claim_C9_counterexample). -/
theorem claim_C9_paths_equivalence (gen : Str → Except Str Str) (ev : Event) (t : Int)
    (chats : List ChatDoc) (bs : Nat)
    (hlen : ∀ c ∈ chats, c.msgs.length ≤ 100)
    (hgen : ∀ p, ∃ u, gen p = Except.ok u) :
    (∀ c ∈ chats, selectMessages (some t) c.msgs = selectMessagesCG (some t) c.msgs) ∧
    ((processChatsInBatches gen ev chats (some t) bs).1.map shapeOf =
      (processCollectionGroupChatsInBatches gen ev (chats.map chatToEntry)
        (some t) bs).1.map shapeOf) ∧
    (processChatsInBatches gen ev chats (some t) bs).2 = none ∧
    (processCollectionGroupChatsInBatches gen ev (chats.map chatToEntry) (some t) bs).2
      = none := by
  have hkey := runBatches_shape gen t ev bs ((chats.length + bs - 1) / bs) hgen
    chats.length 1 chats hlen
  refine ⟨fun c hc => selectMessages_eq_CG t c.msgs (hlen c hc), ?_, ?_, ?_⟩
  · simpa only [processChatsInBatches, processCollectionGroupChatsInBatches,
      List.length_map] using hkey.1
  · simpa only [processChatsInBatches] using hkey.2.1
  · simpa only [processCollectionGroupChatsInBatches, List.length_map] using hkey.2.2

/-- C9 witness: one conversation with one message, watermark 0: the direct
path finishes without error. -/
theorem claim_C9_witness :
    (processChatsInBatches (fun _ => Except.ok ("S".toList))
        ⟨"tk".toList, none, "u".toList⟩
        [⟨"c".toList, [⟨"hi".toList, some 1, "a".toList, "user".toList, []⟩]⟩]
        (some 0) 15).2 = none :=
  (claim_C9_paths_equivalence (fun _ => Except.ok ("S".toList))
      ⟨"tk".toList, none, "u".toList⟩ 0
      [⟨"c".toList, [⟨"hi".toList, some 1, "a".toList, "user".toList, []⟩]⟩] 15
      (by decide)
      (fun p => ⟨"S".toList, rfl⟩)).2.2.1
